import Mathlib

/-!
# Change-broadcast hub of the todo server (`main.go`)

A shallow embedding of the websocket hub (`hub.run`), the per-connection
outbound pump (`connection.writer`) and the change-feed adapters
(`allChanges`, `activeChanges`, `completedChanges`).

Go pointers `*connection` are addresses into a heap; a Go channel is a FIFO
buffer with a capacity and a closed flag; the two run-time panics the hub can
raise (`send on closed channel`, `close of closed channel`) are explicit
results.
-/

namespace TodoHub

/-- A change event (`interface{}` in the source): an opaque payload. -/
abbrev Msg := Nat

/-- The address of a `connection` value (`*connection` in the source). -/
abbrev ConnPtr := Nat

/-- The two run-time panics of Go channels that `hub.run` can raise. -/
inductive Panic where
  | sendOnClosed
  | closeOfClosed
  deriving DecidableEq, Repr

/-- A Go channel `chan interface{}`: the messages queued and not yet
received (oldest first), the capacity given to `make`, and whether `close`
has been called on it. A message handed directly to a receiver that waits on
the empty channel is modelled as queued and then received, which is the same
for a buffered channel (capacity at least 1, as the mailboxes `wsHandler`
makes). -/
structure Chan where
  buf : List Msg
  cap : Nat
  closed : Bool
  deriving DecidableEq, Repr

/-- The operation `make(chan interface{}, n)`. -/
def Chan.make (n : Nat) : Chan := { buf := [], cap := n, closed := false }

/-- Whether the buffer has no free slot (a send would have to wait). -/
def Chan.full (ch : Chan) : Bool := decide (ch.cap ≤ ch.buf.length)

/-- The built-in `close(ch)`: panics on a channel already closed. -/
def Chan.close (ch : Chan) : Except Panic Chan :=
  if ch.closed then .error .closeOfClosed
  else .ok { ch with closed := true }

/-- The send case of `select { case ch <- m: ... default: ... }`: panics on a
closed channel, enqueues at the back when there is room (`some`), and
otherwise reports that the send cannot proceed (`none`), which selects the
`default` case. -/
def Chan.trySend (ch : Chan) (m : Msg) : Except Panic (Option Chan) :=
  if ch.closed then .error .sendOnClosed
  else if ch.buf.length < ch.cap then .ok (some { ch with buf := ch.buf ++ [m] })
  else .ok none

/-- The client socket `*websocket.Conn`, seen from the server: the frames
written successfully (oldest first), the number of `WriteJSON` calls made,
whether the call with a given number returns an error (decided by the
network and the client), and whether `Close` has been called. -/
structure Socket where
  wire : List Msg
  calls : Nat
  fails : Nat → Bool
  closed : Bool

/-- The call `ws.WriteJSON(m)`: `true` stands for a `nil` error. -/
def Socket.WriteJSON (s : Socket) (m : Msg) : Bool × Socket :=
  if s.fails s.calls then (false, { s with calls := s.calls + 1 })
  else (true, { s with wire := s.wire ++ [m], calls := s.calls + 1 })

/-- The call `ws.Close()`. -/
def Socket.Close (s : Socket) : Socket := { s with closed := true }

/-- The struct `connection`, with the status of the goroutine started by
`go c.writer()` next to it. -/
structure connection where
  ws : Socket
  send : Chan
  writerExited : Bool

/-- The hub and the heap it points into: `connections` is the key set of the
map `h.connections`, `heap` dereferences a `*connection`. -/
@[ext]
structure hub where
  connections : Finset ConnPtr
  heap : ConnPtr → connection

/-- Replace the channel state of the connection at address `c`. -/
def hub.setSend (h : hub) (c : ConnPtr) (ch : Chan) : hub :=
  { h with heap := Function.update h.heap c { h.heap c with send := ch } }

/-- The function `newHub`, on a given heap: no connection is registered. -/
def newHub (heap : ConnPtr → connection) : hub :=
  { connections := ∅, heap := heap }

/-- The case `c := <-h.register` of `hub.run`. -/
def hub.register (h : hub) (c : ConnPtr) : hub :=
  { h with connections := insert c h.connections }

/-- The case `c := <-h.unregister` of `hub.run`. -/
def hub.unregister (h : hub) (c : ConnPtr) : Except Panic hub :=
  if c ∈ h.connections then
    match (h.heap c).send.close with
    | .error e => .error e
    | .ok ch => .ok ({ h with connections := h.connections.erase c }.setSend c ch)
  else .ok h

/-- The body of the loop `for c := range h.connections` in the broadcast case
of `hub.run`: a non-blocking send, and on `default` the connection is deleted
from the map and its channel closed. -/
def hub.offer (m : Msg) (h : hub) (c : ConnPtr) : Except Panic hub :=
  match (h.heap c).send.trySend m with
  | .error e => .error e
  | .ok (some ch) => .ok (h.setSend c ch)
  | .ok none =>
    match (h.heap c).send.close with
    | .error e => .error e
    | .ok ch => .ok ({ h with connections := h.connections.erase c }.setSend c ch)

/-- The case `m := <-h.broadcast` of `hub.run`, where `ord` is the order in
which `range h.connections` yields the keys of the map. -/
def hub.broadcast (m : Msg) : List ConnPtr → hub → Except Panic hub
  | [], h => .ok h
  | c :: rest, h =>
    match h.offer m c with
    | .error e => .error e
    | .ok h1 => hub.broadcast m rest h1

/-- The orders in which `range h.connections` may yield the keys: every key
once, in any order. -/
def RangeOrder (h : hub) (ord : List ConnPtr) : Prop :=
  ord.Nodup ∧ ord.toFinset = h.connections

instance (h : hub) (ord : List ConnPtr) : Decidable (RangeOrder h ord) :=
  inferInstanceAs (Decidable (ord.Nodup ∧ ord.toFinset = h.connections))

/-- A socket on which nothing has been written and every write succeeds. -/
def Socket.fresh : Socket := { wire := [], calls := 0, fails := fun _ => false, closed := false }

/-- The connection made by `wsHandler`
(`&connection{send: make(chan interface{}, 256), ws: ws}`), with the capacity
of the mailbox as a parameter: an empty open mailbox, and a writer that has
not returned. -/
def connection.new (n : Nat) : connection :=
  { ws := Socket.fresh, send := Chan.make n, writerExited := false }

/-- One iteration of the loop `for change := range c.send` of
`connection.writer`, together with the `c.ws.Close()` that follows the loop
when the iteration leaves it. `none` when the goroutine cannot move: it has
returned, or it waits on an empty channel that is still open. -/
def connection.writerStep (x : connection) : Option connection :=
  if x.writerExited then none
  else
    match x.send.buf with
    | m :: rest =>
      let r := x.ws.WriteJSON m
      if r.1 then some { x with ws := r.2, send := { x.send with buf := rest } }
      else some { ws := r.2.Close, send := { x.send with buf := rest }, writerExited := true }
    | [] =>
      if x.send.closed then some { x with ws := x.ws.Close, writerExited := true }
      else none

/-- The goroutine `connection.writer` run for at most `fuel` iterations: it
stops earlier when it has returned or has to wait for the next message. -/
def connection.writer : Nat → connection → connection
  | 0, x => x
  | fuel + 1, x =>
    match x.writerStep with
    | none => x
    | some y => connection.writer fuel y

/-- What the scheduler can let happen next: the hub receives a request on
one of its three channels (for a broadcast, `ord` is the order in which the
map is ranged over), or the writer goroutine of one connection runs one
iteration of its loop. -/
inductive Action where
  | register (c : ConnPtr)
  | unregister (c : ConnPtr)
  | broadcast (m : Msg) (ord : List ConnPtr)
  | write (c : ConnPtr)
  deriving DecidableEq, Repr

/-- The writer of the connection at `c` runs one iteration (nothing happens
when it cannot move). -/
def hub.writerStep (h : hub) (c : ConnPtr) : hub :=
  match (h.heap c).writerStep with
  | none => h
  | some y => { h with heap := Function.update h.heap c y }

/-- One turn of the `select` in `hub.run`, or one writer iteration. -/
def step (h : hub) : Action → Except Panic hub
  | .register c => .ok (h.register c)
  | .unregister c => h.unregister c
  | .broadcast m ord => h.broadcast m ord
  | .write c => .ok (h.writerStep c)

/-- A run of the system: the actions are executed one at a time, and a panic
ends the run. -/
def exec : hub → List Action → Except Panic hub
  | h, [] => .ok h
  | h, a :: tr =>
    match step h a with
    | .error e => .error e
    | .ok h1 => exec h1 tr

/-- Whether the action can happen in state `h`: a broadcast ranges over the
map in an order that lists the keys the map has at that moment. -/
def enabled (h : hub) : Action → Bool
  | .broadcast _ ord => decide (RangeOrder h ord)
  | _ => true

/-- Whether every action of the run is enabled in the state it happens in. -/
def scheduled : hub → List Action → Bool
  | _, [] => true
  | h, a :: tr =>
    enabled h a &&
      match step h a with
      | .ok h1 => scheduled h1 tr
      | .error _ => true

/-- Every broadcast of the run ranges over the map in an order that lists
the keys the map has at that moment. -/
def Scheduled (h : hub) (tr : List Action) : Prop := scheduled h tr = true

instance (h : hub) (tr : List Action) : Decidable (Scheduled h tr) :=
  inferInstanceAs (Decidable (scheduled h tr = true))

/-- The connections registered in a run, in order. -/
def registered : List Action → List ConnPtr
  | [] => []
  | .register c :: tr => c :: registered tr
  | _ :: tr => registered tr

/-- The events broadcast in a run, in order. -/
def broadcasts : List Action → List Msg
  | [] => []
  | .broadcast m _ :: tr => m :: broadcasts tr
  | _ :: tr => broadcasts tr

/-- Every member of the connection set has an open mailbox. -/
def MembersOpen (h : hub) : Prop :=
  ∀ c ∈ h.connections, (h.heap c).send.closed = false

instance (h : hub) : Decidable (MembersOpen h) :=
  inferInstanceAs (Decidable (∀ c ∈ h.connections, (h.heap c).send.closed = false))

/-- Whether the action leaves `c` registered: it is not a request to
unregister `c`, and not a broadcast that finds the mailbox of `c` full. -/
def keeps (c : ConnPtr) (h : hub) : Action → Bool
  | .unregister d => decide (d ≠ c)
  | .broadcast _ _ => !(h.heap c).send.full
  | _ => true

/-- Whether every action of the run leaves `c` registered. -/
def staysRegistered (c : ConnPtr) : hub → List Action → Bool
  | _, [] => true
  | h, a :: tr =>
    keeps c h a &&
      match step h a with
      | .ok h1 => staysRegistered c h1 tr
      | .error _ => true

/-- Connection `c` is never asked to unregister in the run and its mailbox
is not full at any broadcast of the run. -/
def StaysRegistered (c : ConnPtr) (h : hub) (tr : List Action) : Prop :=
  staysRegistered c h tr = true

instance (c : ConnPtr) (h : hub) (tr : List Action) : Decidable (StaysRegistered c h tr) :=
  inferInstanceAs (Decidable (staysRegistered c h tr = true))

/-- The number of messages of `q` written before the first failing call,
when the next call has number `calls`: the position of the first message
whose write fails, or the length of `q` when none fails. -/
def firstFailure (fails : Nat → Bool) (calls : Nat) : List Msg → Nat
  | [] => 0
  | _ :: q => if fails calls then 0 else firstFailure fails (calls + 1) q + 1

/-- The frames on the wire once the writer of the connection has taken from
the mailbox the messages queued now and the messages `fut` queued later:
nothing more when it has returned, and otherwise the messages up to the first
failing write. -/
def connection.eventually (x : connection) (fut : List Msg) : List Msg :=
  if x.writerExited then x.ws.wire
  else x.ws.wire ++
    (x.send.buf ++ fut).take (firstFailure x.ws.fails x.ws.calls (x.send.buf ++ fut))

/-- The scenario with mailboxes of capacity 2: connections 0 (A) and 1 (B)
are registered, three events are broadcast, and the writer of A runs one
iteration after each broadcast while the writer of B never runs. -/
def capacityTwoScenario (e1 e2 e3 : Msg) (o1 o2 o3 : List ConnPtr) : List Action :=
  [.register 0, .register 1, .broadcast e1 o1, .write 0, .broadcast e2 o2, .write 0,
    .broadcast e3 o3, .write 0]

/-- One attempt of a feed adapter to subscribe to the change feed, as the
database answers it: `Run` returns an error, or it returns a cursor whose
`Next` yields the given events and then `false`, `res.Err()` being non-nil
when `err` is set. -/
inductive Attempt where
  | openError
  | cursor (events : List Msg) (err : Bool)
  deriving DecidableEq, Repr

/-- What a feed adapter has done when the answers of the database run out:
the events sent on the hub's broadcast channel (oldest first), the number of
`log.Println` lines, and whether `log.Fatalln` has terminated the process. -/
structure Feed where
  sent : List Msg
  logged : Nat
  fatal : Bool
  deriving DecidableEq, Repr

/-- The goroutine body shared by `allChanges`, `activeChanges` and
`completedChanges` (they differ in the query only), run against the answers
the database gives to the successive `Run` calls. -/
def changesLoop : List Attempt → Feed
  | [] => { sent := [], logged := 0, fatal := false }
  | .openError :: _ => { sent := [], logged := 0, fatal := true }
  | .cursor events err :: rest =>
    let r := changesLoop rest
    { sent := events ++ r.sent, logged := (if err then 1 else 0) + r.logged, fatal := r.fatal }

/-- The adapter `allChanges`. -/
def allChanges (answers : List Attempt) : Feed := changesLoop answers

/-- The adapter `activeChanges`. -/
def activeChanges (answers : List Attempt) : Feed := changesLoop answers

/-- The adapter `completedChanges`. -/
def completedChanges (answers : List Attempt) : Feed := changesLoop answers

/-- The effect of one offer of `m` on a connection whose mailbox is open: the
message is queued when there is room, and the mailbox is closed otherwise. -/
def connection.offered (m : Msg) (x : connection) : connection :=
  if x.send.full then { x with send := { x.send with closed := true } }
  else { x with send := { x.send with buf := x.send.buf ++ [m] } }

/-- The state after the connections listed in `l` have each been offered
`m` once, described connection by connection. -/
def hub.fanout (m : Msg) (l : List ConnPtr) (h : hub) : hub :=
  { connections := h.connections.filter fun c => c ∉ l ∨ (h.heap c).send.full = false
    heap := fun c => if c ∈ l then (h.heap c).offered m else h.heap c }

/-! ## Concrete states used to evaluate the code -/

/-- A connection whose mailbox (capacity 2) is empty and already closed. -/
def closedConn : connection :=
  { ws := Socket.fresh, send := { buf := [], cap := 2, closed := true }, writerExited := false }

/-- A connection whose mailbox (capacity 2) is open and full. -/
def fullConn : connection :=
  { ws := Socket.fresh, send := { buf := [1, 2], cap := 2, closed := false },
    writerExited := false }

/-- A connection whose mailbox (capacity 2) is full and already closed. -/
def fullClosedConn : connection :=
  { ws := Socket.fresh, send := { buf := [1, 2], cap := 2, closed := true },
    writerExited := false }

/-- Two registered connections with empty open mailboxes of capacity 2. -/
def hubTwoEmpty : hub := { connections := {0, 1}, heap := fun _ => connection.new 2 }

/-- One registered connection, whose mailbox is closed. -/
def hubClosedMember : hub := { connections := {0}, heap := fun _ => closedConn }

/-- Two registered connections: the mailbox of 0 is full, that of 1 empty. -/
def hubSlow : hub :=
  { connections := {0, 1}, heap := fun c => if c = 0 then fullConn else connection.new 2 }

/-- Two registered connections: the mailbox of 0 is full, that of 1 is
closed. -/
def hubSlowClosedPeer : hub :=
  { connections := {0, 1}, heap := fun c => if c = 0 then fullConn else closedConn }

/-- One registered connection, whose mailbox is full and closed. -/
def hubFullClosed : hub := { connections := {0}, heap := fun _ => fullClosedConn }

/-- A run on a new hub: two connections are registered, three events are
broadcast while only the writer of connection 0 runs (once), and both
connections are asked to unregister, connection 0 twice. -/
def sampleRun : List Action :=
  [.register 0, .register 1, .broadcast 1 [1, 0], .write 0, .broadcast 2 [0, 1],
    .broadcast 3 [1, 0], .unregister 1, .unregister 0, .unregister 0, .broadcast 4 []]

/-- A run after the registration of connection 0: three events are broadcast
and the writer of connection 0 runs after the first and the third. -/
def sampleFeed : List Action :=
  [.broadcast 1 [0], .write 0, .broadcast 2 [0], .broadcast 3 [0], .write 0]

/-- A connection with three queued messages, on whose socket the second
write fails. -/
def flakyConn : connection :=
  { ws := { wire := [], calls := 0, fails := fun k => decide (k = 1), closed := false }
    send := { buf := [5, 6, 7], cap := 4, closed := false }
    writerExited := false }

/-- A connection with two queued messages and a closed mailbox. -/
def closingConn : connection :=
  { ws := Socket.fresh, send := { buf := [5, 6], cap := 2, closed := true },
    writerExited := false }

/-- The answers of the database in which the first cursor yields the event 1
and ends with an error, the next `Run` fails, and a third cursor would yield
the event 2. -/
def reopenFails : List Attempt :=
  [.cursor [1] true, .openError, .cursor [2] false]

/-- The answers of the database made of cursors only, one for each stream:
its events and whether it ends with an error. -/
def cursors (streams : List (List Msg × Bool)) : List Attempt :=
  streams.map fun s => .cursor s.1 s.2

/-! ## The hub: one offer, one broadcast -/

theorem offer_of_open (m : Msg) (h : hub) (c : ConnPtr)
    (ho : (h.heap c).send.closed = false) :
    h.offer m c = .ok (h.fanout m [c]) := by
  by_cases hf : (h.heap c).send.buf.length < (h.heap c).send.cap
  · have hfull : (h.heap c).send.full = false := by simp [Chan.full, hf]
    simp only [hub.offer, Chan.trySend, ho, hf, if_true, Bool.false_eq_true, if_false]
    congr 1
    apply hub.ext
    · simp only [hub.setSend, hub.fanout]
      ext d
      simp only [Finset.mem_filter, List.mem_singleton]
      constructor
      · intro hd
        refine ⟨hd, ?_⟩
        by_cases hdc : d = c
        · right; rw [hdc]; exact hfull
        · left; exact hdc
      · exact fun hd => hd.1
    · simp only [hub.setSend, hub.fanout]
      funext d
      by_cases hdc : d = c
      · subst hdc
        simp [connection.offered, hfull, ho]
      · simp [hdc]
  · have hfull : (h.heap c).send.full = true := by
      simp only [Chan.full, decide_eq_true_eq]; omega
    simp only [hub.offer, Chan.trySend, Chan.close, ho, hf, if_false, Bool.false_eq_true]
    congr 1
    apply hub.ext
    · simp only [hub.setSend, hub.fanout]
      ext d
      simp only [Finset.mem_filter, Finset.mem_erase, List.mem_singleton]
      constructor
      · rintro ⟨hdc, hd⟩
        exact ⟨hd, Or.inl hdc⟩
      · rintro ⟨hd, hdc | hnf⟩
        · exact ⟨hdc, hd⟩
        · refine ⟨?_, hd⟩
          intro hdc
          rw [hdc, hfull] at hnf
          exact absurd hnf (by decide)
    · simp only [hub.setSend, hub.fanout]
      funext d
      by_cases hdc : d = c
      · subst hdc
        simp [connection.offered, hfull, ho]
      · simp [hdc]

theorem broadcast_cons (m : Msg) (c : ConnPtr) (l : List ConnPtr) (h : hub)
    (ho : (h.heap c).send.closed = false) :
    h.broadcast m (c :: l) = (h.fanout m [c]).broadcast m l := by
  simp only [hub.broadcast, offer_of_open m h c ho]

theorem fanout_cons (m : Msg) (c : ConnPtr) (l : List ConnPtr) (h : hub) (hc : c ∉ l) :
    (h.fanout m [c]).fanout m l = h.fanout m (c :: l) := by
  apply hub.ext
  · simp only [hub.fanout]
    ext d
    simp only [Finset.mem_filter, List.mem_singleton, List.mem_cons]
    by_cases hdc : d = c
    · subst hdc
      simp [hc]
    · simp [hdc]
  · simp only [hub.fanout]
    funext d
    by_cases hdl : d ∈ l
    · have hdc : d ≠ c := fun e => hc (e ▸ hdl)
      simp [hdl, hdc]
    · simp [hdl]

theorem broadcast_list (m : Msg) (l : List ConnPtr) :
    ∀ h : hub, l.Nodup → (∀ c ∈ l, (h.heap c).send.closed = false) →
      h.broadcast m l = .ok (h.fanout m l) := by
  induction l with
  | nil =>
    intro h _ _
    simp only [hub.broadcast]
    congr 1
    apply hub.ext
    · simp [hub.fanout]
    · simp [hub.fanout]
  | cons c l ih =>
    intro h hn ho
    have hc : c ∉ l := (List.nodup_cons.mp hn).1
    rw [broadcast_cons m c l h (ho c (List.mem_cons_self c l)), ih _ (List.nodup_cons.mp hn).2,
      fanout_cons m c l h hc]
    intro d hd
    have hdc : d ≠ c := fun e => hc (e ▸ hd)
    simp only [hub.fanout, List.mem_singleton, hdc, if_false]
    exact ho d (List.mem_cons_of_mem c hd)

theorem mem_rangeOrder {h : hub} {ord : List ConnPtr} (hr : RangeOrder h ord) (c : ConnPtr) :
    c ∈ ord ↔ c ∈ h.connections := by
  rw [← hr.2, List.mem_toFinset]

/-- Under any range order, a broadcast in a state whose members all have an
open mailbox ends in the state described connection by connection. -/
theorem broadcast_eq_fanout (m : Msg) (h : hub) (ord : List ConnPtr)
    (hr : RangeOrder h ord) (ho : MembersOpen h) :
    h.broadcast m ord = .ok (h.fanout m ord) :=
  broadcast_list m ord h hr.1 fun c hc => ho c ((mem_rangeOrder hr c).mp hc)

theorem fanout_connections (m : Msg) (h : hub) (ord : List ConnPtr) (hr : RangeOrder h ord)
    (c : ConnPtr) :
    c ∈ (h.fanout m ord).connections ↔ c ∈ h.connections ∧ (h.heap c).send.full = false := by
  simp only [hub.fanout, Finset.mem_filter, mem_rangeOrder hr]
  constructor
  · rintro ⟨hc, hn | hf⟩
    · exact absurd hc hn
    · exact ⟨hc, hf⟩
  · rintro ⟨hc, hf⟩
    exact ⟨hc, Or.inr hf⟩

theorem fanout_heap (m : Msg) (h : hub) (ord : List ConnPtr) (hr : RangeOrder h ord)
    (c : ConnPtr) :
    (h.fanout m ord).heap c = if c ∈ h.connections then (h.heap c).offered m else h.heap c := by
  simp only [hub.fanout, mem_rangeOrder hr]

/-! ## Broadcast -/

/-- C1: in a hub state in which every registered connection has an open
mailbox (the invariant of every state a run from `newHub` reaches, see
`exec_safe`) and none has a full one, one broadcast step of `hub.run`,
whatever the order of the range, appends the event once at the end of every
registered connection's mailbox, closes no mailbox, leaves the membership
set unchanged and does not touch the connections that are not registered. -/
theorem broadcast_fanout_complete (h : hub) (m : Msg) (ord : List ConnPtr)
    (hr : RangeOrder h ord) (ho : MembersOpen h)
    (hroom : ∀ c ∈ h.connections, (h.heap c).send.full = false) :
    ∃ h1, h.broadcast m ord = .ok h1 ∧
      h1.connections = h.connections ∧
      (∀ c ∈ h.connections, (h1.heap c).send.buf = (h.heap c).send.buf ++ [m]) ∧
      (∀ c, (h1.heap c).send.closed = (h.heap c).send.closed) ∧
      (∀ c, c ∉ h.connections → h1.heap c = h.heap c) := by
  refine ⟨h.fanout m ord, broadcast_eq_fanout m h ord hr ho, ?_, ?_, ?_, ?_⟩
  · ext c
    rw [fanout_connections m h ord hr c]
    exact ⟨fun hc => hc.1, fun hc => ⟨hc, hroom c hc⟩⟩
  · intro c hc
    rw [fanout_heap m h ord hr c]
    simp [hc, connection.offered, hroom c hc]
  · intro c
    rw [fanout_heap m h ord hr c]
    by_cases hc : c ∈ h.connections
    · simp [hc, connection.offered, hroom c hc]
    · simp [hc]
  · intro c hc
    rw [fanout_heap m h ord hr c]
    simp [hc]

/-- C1, evaluated on two registered connections with empty mailboxes. -/
theorem broadcast_fanout_complete_witness :
    RangeOrder hubTwoEmpty [1, 0] ∧ MembersOpen hubTwoEmpty ∧
    (∀ c ∈ hubTwoEmpty.connections, (hubTwoEmpty.heap c).send.full = false) ∧
    ∃ h1, hubTwoEmpty.broadcast 7 [1, 0] = .ok h1 ∧
      h1.connections = hubTwoEmpty.connections ∧
      (∀ c ∈ hubTwoEmpty.connections,
        (h1.heap c).send.buf = (hubTwoEmpty.heap c).send.buf ++ [7]) ∧
      (∀ c, (h1.heap c).send.closed = (hubTwoEmpty.heap c).send.closed) ∧
      (∀ c, c ∉ hubTwoEmpty.connections → h1.heap c = hubTwoEmpty.heap c) :=
  ⟨by decide, by decide, by decide,
    broadcast_fanout_complete hubTwoEmpty 7 [1, 0] (by decide) (by decide) (by decide)⟩

/-- Outside the invariant: when the only registered connection has a mailbox
that is not full but closed, the broadcast step panics with `send on closed
channel`. No run from `newHub` reaches such a state (`exec_safe`). -/
theorem broadcast_panics_on_closed_member :
    RangeOrder hubClosedMember [0] ∧
    (∀ c ∈ hubClosedMember.connections, (hubClosedMember.heap c).send.full = false) ∧
    hubClosedMember.broadcast 7 [0] = .error .sendOnClosed :=
  ⟨by decide, by decide, rfl⟩

/-- C2: in a hub state in which every registered connection has an open
mailbox (the invariant of every state a run from `newHub` reaches, see
`exec_safe`), if the mailbox of the registered connection `C` is full when
the event is broadcast, then after the broadcast step `C` is no longer a
member, its mailbox is closed and holds the messages it held before, and
every registered connection whose mailbox was not full is still a member and
has the event appended to its mailbox. -/
theorem broadcast_isolates_slow_consumer (h : hub) (m : Msg) (ord : List ConnPtr) (C : ConnPtr)
    (hr : RangeOrder h ord) (ho : MembersOpen h)
    (hC : C ∈ h.connections) (hfull : (h.heap C).send.full = true) :
    ∃ h1, h.broadcast m ord = .ok h1 ∧
      C ∉ h1.connections ∧
      (h1.heap C).send.closed = true ∧
      (h1.heap C).send.buf = (h.heap C).send.buf ∧
      (∀ d ∈ h.connections, (h.heap d).send.full = false →
        d ∈ h1.connections ∧ (h1.heap d).send.closed = false ∧
        (h1.heap d).send.buf = (h.heap d).send.buf ++ [m]) := by
  refine ⟨h.fanout m ord, broadcast_eq_fanout m h ord hr ho, ?_, ?_, ?_, ?_⟩
  · rw [fanout_connections m h ord hr C]
    simp [hfull]
  · rw [fanout_heap m h ord hr C]
    simp [hC, connection.offered, hfull]
  · rw [fanout_heap m h ord hr C]
    simp [hC, connection.offered, hfull]
  · intro d hd hroom
    rw [fanout_connections m h ord hr d, fanout_heap m h ord hr d]
    simp [hd, hroom, connection.offered, ho d hd]

/-- C2, evaluated on a hub where connection 0 is full and connection 1 is
not. -/
theorem broadcast_isolates_slow_consumer_witness :
    RangeOrder hubSlow [1, 0] ∧ MembersOpen hubSlow ∧ 0 ∈ hubSlow.connections ∧
    (hubSlow.heap 0).send.full = true ∧
    ∃ h1, hubSlow.broadcast 7 [1, 0] = .ok h1 ∧
      0 ∉ h1.connections ∧
      (h1.heap 0).send.closed = true ∧
      (h1.heap 0).send.buf = (hubSlow.heap 0).send.buf ∧
      (∀ d ∈ hubSlow.connections, (hubSlow.heap d).send.full = false →
        d ∈ h1.connections ∧ (h1.heap d).send.closed = false ∧
        (h1.heap d).send.buf = (hubSlow.heap d).send.buf ++ [7]) :=
  ⟨by decide, by decide, by decide, by decide,
    broadcast_isolates_slow_consumer hubSlow 7 [1, 0] 0 (by decide) (by decide) (by decide)
      (by decide)⟩

/-- Outside the invariant: when connection 0 is registered with a full
mailbox and connection 1 with a mailbox that is not full but closed, the
broadcast step panics with `send on closed channel` in both orders of the
range. No run from `newHub` reaches such a state (`exec_safe`). -/
theorem broadcast_slow_consumer_closed_peer :
    0 ∈ hubSlowClosedPeer.connections ∧ (hubSlowClosedPeer.heap 0).send.full = true ∧
    1 ∈ hubSlowClosedPeer.connections ∧ (hubSlowClosedPeer.heap 1).send.full = false ∧
    RangeOrder hubSlowClosedPeer [0, 1] ∧ RangeOrder hubSlowClosedPeer [1, 0] ∧
    hubSlowClosedPeer.broadcast 7 [0, 1] = .error .sendOnClosed ∧
    hubSlowClosedPeer.broadcast 7 [1, 0] = .error .sendOnClosed :=
  ⟨by decide, by decide, by decide, by decide, by decide, by decide, rfl, rfl⟩

/-- C10: in a hub state in which every registered connection has an open
mailbox, full or not (the invariant of every state a run from `newHub`
reaches, see `exec_safe`), the broadcast step of `hub.run` completes for
every event and every order of the range: the loop runs once for each
registered connection, each of them has either the event appended once to its
mailbox and stays registered, or, its mailbox being full, is removed from the
membership set with its mailbox closed and its queued messages unchanged,
and no connection that is not registered is offered the event. -/
theorem broadcast_completes (h : hub) (m : Msg) (ord : List ConnPtr)
    (hr : RangeOrder h ord) (ho : MembersOpen h) :
    ∃ h1, h.broadcast m ord = .ok h1 ∧
      ord.length = h.connections.card ∧
      (∀ c ∈ h.connections,
        ((h.heap c).send.full = false ∧ c ∈ h1.connections ∧
          (h1.heap c).send.closed = false ∧
          (h1.heap c).send.buf = (h.heap c).send.buf ++ [m]) ∨
        ((h.heap c).send.full = true ∧ c ∉ h1.connections ∧
          (h1.heap c).send.closed = true ∧
          (h1.heap c).send.buf = (h.heap c).send.buf)) ∧
      (∀ c, c ∉ h.connections → c ∉ h1.connections ∧ h1.heap c = h.heap c) := by
  refine ⟨h.fanout m ord, broadcast_eq_fanout m h ord hr ho, ?_, ?_, ?_⟩
  · rw [← hr.2, List.toFinset_card_of_nodup hr.1]
  · intro c hc
    rw [fanout_connections m h ord hr c, fanout_heap m h ord hr c]
    cases hf : (h.heap c).send.full
    · left
      simp [hc, hf, connection.offered, ho c hc]
    · right
      simp [hc, hf, connection.offered]
  · intro c hc
    rw [fanout_connections m h ord hr c, fanout_heap m h ord hr c]
    simp [hc]

/-- C10, evaluated on a hub where connection 0 is full and connection 1 is
not. -/
theorem broadcast_completes_witness :
    RangeOrder hubSlow [0, 1] ∧ MembersOpen hubSlow ∧
    ∃ h1, hubSlow.broadcast 7 [0, 1] = .ok h1 ∧
      [0, 1].length = hubSlow.connections.card ∧
      (∀ c ∈ hubSlow.connections,
        ((hubSlow.heap c).send.full = false ∧ c ∈ h1.connections ∧
          (h1.heap c).send.closed = false ∧
          (h1.heap c).send.buf = (hubSlow.heap c).send.buf ++ [7]) ∨
        ((hubSlow.heap c).send.full = true ∧ c ∉ h1.connections ∧
          (h1.heap c).send.closed = true ∧
          (h1.heap c).send.buf = (hubSlow.heap c).send.buf)) ∧
      (∀ c, c ∉ hubSlow.connections → c ∉ h1.connections ∧ h1.heap c = hubSlow.heap c) :=
  ⟨by decide, by decide, broadcast_completes hubSlow 7 [0, 1] (by decide) (by decide)⟩

/-- Outside the invariant: when every mailbox is full and the only registered
one is also closed, the broadcast step panics with `send on closed channel`.
No run from `newHub` reaches such a state (`exec_safe`). -/
theorem broadcast_full_closed_panics :
    RangeOrder hubFullClosed [0] ∧
    (∀ c, (hubFullClosed.heap c).send.full = true) ∧
    hubFullClosed.broadcast 7 [0] = .error .sendOnClosed :=
  ⟨by decide, fun _ => rfl, rfl⟩

/-! ## Unregister -/

theorem unregister_of_not_mem (h : hub) (C : ConnPtr) (hC : C ∉ h.connections) :
    h.unregister C = .ok h := by
  simp only [hub.unregister, hC, if_false]

theorem unregister_of_open (h : hub) (C : ConnPtr) (hC : C ∈ h.connections)
    (ho : (h.heap C).send.closed = false) :
    h.unregister C =
      .ok ({ h with connections := h.connections.erase C }.setSend C
        { (h.heap C).send with closed := true }) := by
  simp only [hub.unregister, hC, if_true, Chan.close, ho, Bool.false_eq_true, if_false]

theorem unregister_not_mem_after (h h1 : hub) (C : ConnPtr) (hu : h.unregister C = .ok h1) :
    C ∉ h1.connections := by
  by_cases hC : C ∈ h.connections
  · cases ho : (h.heap C).send.closed
    · rw [unregister_of_open h C hC ho] at hu
      injection hu with hu
      subst hu
      simp [hub.setSend]
    · simp [hub.unregister, hC, Chan.close, ho] at hu
  · rw [unregister_of_not_mem h C hC] at hu
    injection hu with hu
    subst hu
    exact hC

/-- C4: unregistering a connection that is not a member leaves the whole hub
state unchanged; a second unregister of the same connection right after a
first one is such a no-op, so two unregister requests in a row end as one
does; and for a member with an open mailbox both end in the state where the
connection is removed and its mailbox closed, the second request closing
nothing (a second `close` would have panicked). -/
theorem unregister_nonmember_noop :
    (∀ (h : hub) (C : ConnPtr), C ∉ h.connections → h.unregister C = .ok h) ∧
    (∀ (h h1 : hub) (C : ConnPtr), h.unregister C = .ok h1 → h1.unregister C = .ok h1) ∧
    (∀ (h : hub) (C : ConnPtr),
      exec h [.unregister C, .unregister C] = exec h [.unregister C]) ∧
    (∀ (h : hub) (C : ConnPtr), C ∈ h.connections → (h.heap C).send.closed = false →
      ∃ h1, exec h [.unregister C, .unregister C] = .ok h1 ∧
        C ∉ h1.connections ∧ (h1.heap C).send.closed = true ∧
        (h1.heap C).send.buf = (h.heap C).send.buf) := by
  refine ⟨unregister_of_not_mem, ?_, ?_, ?_⟩
  · intro h h1 C hu
    exact unregister_of_not_mem h1 C (unregister_not_mem_after h h1 C hu)
  · intro h C
    simp only [exec, step]
    cases hu : h.unregister C with
    | error e => rfl
    | ok h1 =>
      simp only [unregister_of_not_mem h1 C (unregister_not_mem_after h h1 C hu)]
  · intro h C hC ho
    refine ⟨{ h with connections := h.connections.erase C }.setSend C
      { (h.heap C).send with closed := true }, ?_, ?_, ?_, ?_⟩
    · simp only [exec, step, unregister_of_open h C hC ho]
      rw [unregister_of_not_mem]
      simp [hub.setSend]
    · simp [hub.setSend]
    · simp [hub.setSend]
    · simp [hub.setSend]

/-- C4, evaluated on a hub where 0 and 1 are registered and 5 is not. -/
theorem unregister_nonmember_noop_witness :
    5 ∉ hubTwoEmpty.connections ∧ hubTwoEmpty.unregister 5 = .ok hubTwoEmpty ∧
    0 ∈ hubTwoEmpty.connections ∧ (hubTwoEmpty.heap 0).send.closed = false ∧
    ∃ h1, exec hubTwoEmpty [.unregister 0, .unregister 0] = .ok h1 ∧
      0 ∉ h1.connections ∧ (h1.heap 0).send.closed = true ∧
      (h1.heap 0).send.buf = (hubTwoEmpty.heap 0).send.buf :=
  ⟨by decide, unregister_nonmember_noop.1 hubTwoEmpty 5 (by decide), by decide, by decide,
    unregister_nonmember_noop.2.2.2 hubTwoEmpty 0 (by decide) (by decide)⟩

/-- C5: for a registered connection `C` whose mailbox is open (as that of
every member is in every state a run from `newHub` reaches, see `exec_safe`),
the unregister step removes exactly `C` from the membership set and closes
the mailbox of `C`; the membership of every other connection, the messages
queued in every mailbox (that of `C` included) and every other connection
are unchanged. -/
theorem unregister_member (h : hub) (C : ConnPtr) (hC : C ∈ h.connections)
    (ho : (h.heap C).send.closed = false) :
    ∃ h1, h.unregister C = .ok h1 ∧
      (∀ d, d ∈ h1.connections ↔ d ∈ h.connections ∧ d ≠ C) ∧
      (h1.heap C).send.closed = true ∧
      (∀ d, (h1.heap d).send.buf = (h.heap d).send.buf) ∧
      (∀ d, d ≠ C → h1.heap d = h.heap d) := by
  refine ⟨_, unregister_of_open h C hC ho, ?_, ?_, ?_, ?_⟩
  · intro d
    simp only [hub.setSend, Finset.mem_erase]
    exact ⟨fun hd => ⟨hd.2, hd.1⟩, fun hd => ⟨hd.2, hd.1⟩⟩
  · simp [hub.setSend]
  · intro d
    by_cases hd : d = C
    · subst hd
      simp [hub.setSend]
    · simp [hub.setSend, hd]
  · intro d hd
    simp [hub.setSend, hd]

/-- C5, evaluated on the unregistration of connection 0 of a hub whose
connection 0 has two queued messages. -/
theorem unregister_member_witness :
    0 ∈ hubSlow.connections ∧ (hubSlow.heap 0).send.closed = false ∧
    ∃ h1, hubSlow.unregister 0 = .ok h1 ∧
      (∀ d, d ∈ h1.connections ↔ d ∈ hubSlow.connections ∧ d ≠ 0) ∧
      (h1.heap 0).send.closed = true ∧
      (∀ d, (h1.heap d).send.buf = (hubSlow.heap d).send.buf) ∧
      (∀ d, d ≠ 0 → h1.heap d = hubSlow.heap d) :=
  ⟨by decide, by decide, unregister_member hubSlow 0 (by decide) (by decide)⟩

/-- Outside the invariant: when connection 0 is registered and its mailbox is
already closed, the unregister step panics with `close of closed channel`.
No run from `newHub` reaches such a state (`exec_safe`). -/
theorem unregister_closed_member_panics :
    0 ∈ hubClosedMember.connections ∧
    hubClosedMember.unregister 0 = .error .closeOfClosed :=
  ⟨by decide, rfl⟩

/-! ## Runs of the system -/

theorem writerStep_closed (x y : connection) (hs : x.writerStep = some y) :
    y.send.closed = x.send.closed := by
  unfold connection.writerStep at hs
  split at hs
  · exact absurd hs (by simp)
  · split at hs
    · dsimp only at hs
      split at hs <;> (injection hs with hs; subst hs; rfl)
    · split at hs
      · injection hs with hs; subst hs; rfl
      · exact absurd hs (by simp)

theorem hub_writerStep_connections (h : hub) (c : ConnPtr) :
    (h.writerStep c).connections = h.connections := by
  unfold hub.writerStep
  split <;> rfl

theorem hub_writerStep_closed (h : hub) (c d : ConnPtr) :
    ((h.writerStep c).heap d).send.closed = (h.heap d).send.closed := by
  unfold hub.writerStep
  split
  · rfl
  · rename_i y hy
    by_cases hd : d = c
    · subst hd
      simp [writerStep_closed _ _ hy]
    · simp [hd]

theorem hub_writerStep_other (h : hub) (c d : ConnPtr) (hd : d ≠ c) :
    (h.writerStep c).heap d = h.heap d := by
  unfold hub.writerStep
  split
  · rfl
  · simp [hd]

/-- One enabled action in a state whose members all have an open mailbox, a
registration being that of a connection with an open mailbox: the action does
not panic, the members of the next state all have an open mailbox, and a
connection that is not a member and is not being registered stays out of the
membership set with its mailbox open or closed as before. -/
theorem step_safe (h : hub) (a : Action) (ho : MembersOpen h) (he : enabled h a = true)
    (hreg : ∀ c, a = .register c → (h.heap c).send.closed = false) :
    ∃ h1, step h a = .ok h1 ∧ MembersOpen h1 ∧
      ∀ d, d ∉ h.connections → a ≠ .register d →
        d ∉ h1.connections ∧ (h1.heap d).send.closed = (h.heap d).send.closed := by
  cases a with
  | register c =>
    refine ⟨h.register c, rfl, ?_, ?_⟩
    · intro d hd
      simp only [hub.register, Finset.mem_insert] at hd
      rcases hd with hd | hd
      · subst hd
        exact hreg d rfl
      · exact ho d hd
    · intro d hd hne
      have hdc : d ≠ c := fun e => hne (by rw [e])
      simp [hub.register, hd, hdc]
  | unregister c =>
    by_cases hc : c ∈ h.connections
    · refine ⟨_, unregister_of_open h c hc (ho c hc), ?_, ?_⟩
      · intro d hd
        simp only [hub.setSend, Finset.mem_erase] at hd
        simp only [hub.setSend, Function.update_noteq hd.1]
        exact ho d hd.2
      · intro d hd _
        have hdc : d ≠ c := fun e => hd (e ▸ hc)
        simp [hub.setSend, hd, hdc]
    · refine ⟨h, unregister_of_not_mem h c hc, ho, ?_⟩
      intro d hd _
      exact ⟨hd, rfl⟩
  | broadcast m ord =>
    have hr : RangeOrder h ord := by simpa [enabled] using he
    refine ⟨h.fanout m ord, broadcast_eq_fanout m h ord hr ho, ?_, ?_⟩
    · intro d hd
      rw [fanout_connections m h ord hr d] at hd
      rw [fanout_heap m h ord hr d]
      simp [hd.1, hd.2, connection.offered, ho d hd.1]
    · intro d hd _
      rw [fanout_connections m h ord hr d, fanout_heap m h ord hr d]
      simp [hd]
  | write c =>
    refine ⟨h.writerStep c, rfl, ?_, ?_⟩
    · intro d hd
      rw [hub_writerStep_connections] at hd
      rw [hub_writerStep_closed]
      exact ho d hd
    · intro d hd _
      rw [hub_writerStep_connections, hub_writerStep_closed]
      exact ⟨hd, rfl⟩

theorem scheduled_cons (h : hub) (a : Action) (tr : List Action)
    (hs : Scheduled h (a :: tr)) :
    enabled h a = true ∧ ∀ h1, step h a = .ok h1 → Scheduled h1 tr := by
  unfold Scheduled at hs
  simp only [scheduled, Bool.and_eq_true] at hs
  refine ⟨hs.1, ?_⟩
  intro h1 h1eq
  have h2 := hs.2
  rw [h1eq] at h2
  exact h2

/-- A scheduled run in which every connection is registered at most once,
started in a state whose members have open mailboxes and where the
connections to be registered are not members and have open mailboxes, does
not panic and ends in a state whose members have open mailboxes. -/
theorem exec_safe (tr : List Action) :
    ∀ h : hub, Scheduled h tr → (registered tr).Nodup → MembersOpen h →
      (∀ c ∈ registered tr, c ∉ h.connections ∧ (h.heap c).send.closed = false) →
      ∃ h1, exec h tr = .ok h1 ∧ MembersOpen h1 := by
  induction tr with
  | nil =>
    intro h _ _ ho _
    exact ⟨h, rfl, ho⟩
  | cons a tr ih =>
    intro h hs hn ho hfut
    obtain ⟨he, hs1⟩ := scheduled_cons h a tr hs
    have hreg : ∀ c, a = .register c → (h.heap c).send.closed = false := by
      intro c hc
      subst hc
      exact (hfut c (List.mem_cons_self c _)).2
    obtain ⟨h1, hstep, ho1, hframe⟩ := step_safe h a ho he hreg
    have hn1 : (registered tr).Nodup ∧
        ∀ c ∈ registered tr, c ∈ registered (a :: tr) ∧ a ≠ .register c := by
      cases a with
      | register c =>
        simp only [registered, List.nodup_cons] at hn
        refine ⟨hn.2, fun d hd => ⟨List.mem_cons_of_mem c hd, ?_⟩⟩
        intro e
        injection e with e
        exact hn.1 (e ▸ hd)
      | unregister c => exact ⟨hn, fun d hd => ⟨hd, by simp⟩⟩
      | broadcast m ord => exact ⟨hn, fun d hd => ⟨hd, by simp⟩⟩
      | write c => exact ⟨hn, fun d hd => ⟨hd, by simp⟩⟩
    have hfut1 : ∀ c ∈ registered tr,
        c ∉ h1.connections ∧ (h1.heap c).send.closed = false := by
      intro c hc
      obtain ⟨hc0, hne⟩ := hn1.2 c hc
      obtain ⟨hnm, hcl⟩ := hframe c (hfut c hc0).1 hne
      exact ⟨hnm, by rw [hcl]; exact (hfut c hc0).2⟩
    obtain ⟨h2, hexec, ho2⟩ := ih h1 (hs1 h1 hstep) hn1.1 ho1 hfut1
    refine ⟨h2, ?_, ho2⟩
    simp only [exec, hstep]
    exact hexec

/-- C3: a run of register, unregister and broadcast requests (interleaved
with any number of writer iterations) that starts from `newHub()`, registers
each connection at most once and registers only connections whose mailbox is
open, never panics, so the hub neither sends on a closed mailbox nor closes
a mailbox twice; and in the state it reaches every member of the connection
set has an open mailbox. -/
theorem members_open_invariant (heap : ConnPtr → connection) (tr : List Action)
    (hs : Scheduled (newHub heap) tr)
    (honce : (registered tr).Nodup)
    (hopen : ∀ c ∈ registered tr, (heap c).send.closed = false) :
    ∃ h, exec (newHub heap) tr = .ok h ∧
      ∀ c ∈ h.connections, (h.heap c).send.closed = false := by
  refine exec_safe tr (newHub heap) hs honce ?_ ?_
  · intro c hc
    simp [newHub] at hc
  · intro c hc
    exact ⟨by simp [newHub], hopen c hc⟩

/-- C3, evaluated on a run with an eviction and a repeated unregister. -/
theorem members_open_invariant_witness :
    Scheduled (newHub fun _ => connection.new 2) sampleRun ∧
    (registered sampleRun).Nodup ∧
    (∀ c ∈ registered sampleRun, ((fun _ => connection.new 2) c).send.closed = false) ∧
    ∃ h, exec (newHub fun _ => connection.new 2) sampleRun = .ok h ∧
      ∀ c ∈ h.connections, (h.heap c).send.closed = false :=
  ⟨by decide, by decide, by decide,
    members_open_invariant (fun _ => connection.new 2) sampleRun (by decide) (by decide)
      (by decide)⟩

theorem membersOpen_register (h : hub) (c : ConnPtr) (ho : MembersOpen h)
    (hc : (h.heap c).send.closed = false) : MembersOpen (h.register c) := by
  obtain ⟨h1, hstep, ho1, _⟩ := step_safe h (.register c) ho rfl
    (fun d hd => by injection hd with hd; subst hd; exact hc)
  injection hstep with hstep
  subst hstep
  exact ho1

theorem membersOpen_fanout (h : hub) (m : Msg) (ord : List ConnPtr) (hr : RangeOrder h ord)
    (ho : MembersOpen h) : MembersOpen (h.fanout m ord) := by
  obtain ⟨h1, hstep, ho1, _⟩ := step_safe h (.broadcast m ord) ho
    (by simpa [enabled] using hr) (fun d hd => by simp at hd)
  simp only [step, broadcast_eq_fanout m h ord hr ho] at hstep
  injection hstep with hstep
  subst hstep
  exact ho1

theorem membersOpen_writerStep (h : hub) (c : ConnPtr) (ho : MembersOpen h) :
    MembersOpen (h.writerStep c) := by
  obtain ⟨h1, hstep, ho1, _⟩ := step_safe h (.write c) ho rfl (fun d hd => by simp at hd)
  injection hstep with hstep
  subst hstep
  exact ho1

/-- The state after a broadcast does not depend on the order of the range. -/
theorem fanout_congr (h : hub) (m : Msg) (ord ord1 : List ConnPtr) (hr : RangeOrder h ord)
    (hr1 : RangeOrder h ord1) : h.fanout m ord = h.fanout m ord1 := by
  apply hub.ext
  · ext c
    rw [fanout_connections m h ord hr c, fanout_connections m h ord1 hr1 c]
  · funext c
    rw [fanout_heap m h ord hr c, fanout_heap m h ord1 hr1 c]

theorem scheduled_broadcast (h : hub) (m : Msg) (ord ord1 : List ConnPtr) (tr : List Action)
    (hs : Scheduled h (.broadcast m ord :: tr)) (ho : MembersOpen h)
    (hr1 : RangeOrder h ord1) :
    step h (.broadcast m ord) = .ok (h.fanout m ord1) ∧ Scheduled (h.fanout m ord1) tr ∧
      MembersOpen (h.fanout m ord1) := by
  obtain ⟨he, hs1⟩ := scheduled_cons h _ tr hs
  have hr : RangeOrder h ord := by simpa [enabled] using he
  have hstep : step h (.broadcast m ord) = .ok (h.fanout m ord1) := by
    simp only [step, broadcast_eq_fanout m h ord hr ho, fanout_congr h m ord ord1 hr hr1]
  exact ⟨hstep, hs1 _ hstep, membersOpen_fanout h m ord1 hr1 ho⟩

/-- C6: on a new hub, connections 0 (A) and 1 (B) are registered with empty
mailboxes of capacity 2 and the events `e1`, `e2`, `e3` are broadcast, the
writer of A running one iteration after each broadcast and the writer of B
never; whatever the orders of the three ranges, B is still a member with an
open mailbox before the third broadcast, and at the end A is a member and
`e1, e2, e3` have been written to its socket in that order, while B is not a
member, its mailbox is closed and holds exactly `e1, e2`. -/
theorem capacity_two_scenario (e1 e2 e3 : Msg) (o1 o2 o3 : List ConnPtr)
    (hs : Scheduled (newHub fun _ => connection.new 2)
      (capacityTwoScenario e1 e2 e3 o1 o2 o3)) :
    ∃ h2 h3,
      exec (newHub fun _ => connection.new 2)
        ((capacityTwoScenario e1 e2 e3 o1 o2 o3).take 6) = .ok h2 ∧
      1 ∈ h2.connections ∧ (h2.heap 1).send.closed = false ∧
      (h2.heap 1).send.buf = [e1, e2] ∧
      exec (newHub fun _ => connection.new 2) (capacityTwoScenario e1 e2 e3 o1 o2 o3) =
        .ok h3 ∧
      0 ∈ h3.connections ∧ (h3.heap 0).ws.wire = [e1, e2, e3] ∧
      1 ∉ h3.connections ∧ (h3.heap 1).send.closed = true ∧
      (h3.heap 1).send.buf = [e1, e2] := by
  unfold capacityTwoScenario at hs ⊢
  have hs1 := (scheduled_cons _ _ _ hs).2 _ rfl
  have hs2 := (scheduled_cons _ _ _ hs1).2 _ rfl
  obtain ⟨hb1, hs3, ho3⟩ := scheduled_broadcast _ e1 o1 [0, 1] _ hs2 (by decide) (by decide)
  have hs4 := (scheduled_cons _ _ _ hs3).2 _ rfl
  have ho4 := membersOpen_writerStep _ 0 ho3
  obtain ⟨hb2, hs5, ho5⟩ := scheduled_broadcast _ e2 o2 [0, 1] _ hs4 ho4 ⟨by decide, of_decide_eq_true rfl⟩
  have hs6 := (scheduled_cons _ _ _ hs5).2 _ rfl
  have ho6 := membersOpen_writerStep _ 0 ho5
  obtain ⟨hb3, _, _⟩ := scheduled_broadcast _ e3 o3 [0, 1] _ hs6 ho6 ⟨by decide, of_decide_eq_true rfl⟩
  refine ⟨((((((newHub fun _ => connection.new 2).register 0).register 1).fanout e1
      [0, 1]).writerStep 0).fanout e2 [0, 1]).writerStep 0,
    ((((((((newHub fun _ => connection.new 2).register 0).register 1).fanout e1
      [0, 1]).writerStep 0).fanout e2 [0, 1]).writerStep 0).fanout e3 [0, 1]).writerStep 0,
    ?_, ?_, ?_, ?_, ?_, ?_, ?_, ?_, ?_, ?_⟩
  · simp only [List.take, exec, step] at hb1 hb2 ⊢
    simp only [hb1, hb2]
  · exact of_decide_eq_true rfl
  · rfl
  · rfl
  · simp only [exec, step] at hb1 hb2 hb3 ⊢
    simp only [hb1, hb2, hb3]
  · exact of_decide_eq_true rfl
  · rfl
  · exact of_decide_eq_true rfl
  · rfl
  · rfl

/-- C6, evaluated with the events 1, 2, 3 and three orders of the range. -/
theorem capacity_two_scenario_witness :
    Scheduled (newHub fun _ => connection.new 2)
      (capacityTwoScenario 1 2 3 [0, 1] [1, 0] [0, 1]) ∧
    ∃ h2 h3,
      exec (newHub fun _ => connection.new 2)
        ((capacityTwoScenario 1 2 3 [0, 1] [1, 0] [0, 1]).take 6) = .ok h2 ∧
      1 ∈ h2.connections ∧ (h2.heap 1).send.closed = false ∧
      (h2.heap 1).send.buf = [1, 2] ∧
      exec (newHub fun _ => connection.new 2)
        (capacityTwoScenario 1 2 3 [0, 1] [1, 0] [0, 1]) = .ok h3 ∧
      0 ∈ h3.connections ∧ (h3.heap 0).ws.wire = [1, 2, 3] ∧
      1 ∉ h3.connections ∧ (h3.heap 1).send.closed = true ∧
      (h3.heap 1).send.buf = [1, 2] :=
  ⟨by decide, capacity_two_scenario 1 2 3 [0, 1] [1, 0] [0, 1] (by decide)⟩

/-! ## The writer -/

theorem firstFailure_le (fails : Nat → Bool) (q : List Msg) :
    ∀ calls, firstFailure fails calls q ≤ q.length := by
  induction q with
  | nil => intro calls; simp [firstFailure]
  | cons m q ih =>
    intro calls
    simp only [firstFailure, List.length_cons]
    split
    · omega
    · have := ih (calls + 1); omega

theorem firstFailure_before (fails : Nat → Bool) (q : List Msg) :
    ∀ calls i, i < firstFailure fails calls q → fails (calls + i) = false := by
  induction q with
  | nil => intro calls i hi; simp [firstFailure] at hi
  | cons m q ih =>
    intro calls i hi
    simp only [firstFailure] at hi
    split at hi
    · omega
    · rename_i hf
      cases i with
      | zero => simpa using hf
      | succ i =>
        have := ih (calls + 1) i (by omega)
        rw [← this]
        congr 1
        omega

theorem firstFailure_at (fails : Nat → Bool) (q : List Msg) :
    ∀ calls, firstFailure fails calls q < q.length →
      fails (calls + firstFailure fails calls q) = true := by
  induction q with
  | nil => intro calls hk; simp [firstFailure] at hk
  | cons m q ih =>
    intro calls hk
    simp only [firstFailure, List.length_cons] at hk ⊢
    split
    · rename_i hf
      simpa using hf
    · rename_i hf
      rw [if_neg hf] at hk
      have := ih (calls + 1) (by omega)
      rw [← this]
      congr 1
      omega

theorem firstFailure_of_ok (fails : Nat → Bool) (hok : ∀ k, fails k = false) (q : List Msg) :
    ∀ calls, firstFailure fails calls q = q.length := by
  induction q with
  | nil => intro calls; rfl
  | cons m q ih =>
    intro calls
    simp [firstFailure, hok, ih]

theorem writerStep_of_exited (x : connection) (hx : x.writerExited = true) :
    x.writerStep = none := by
  simp [connection.writerStep, hx]

theorem writerStep_nil_open (x : connection) (hx : x.writerExited = false)
    (hb : x.send.buf = []) (ho : x.send.closed = false) : x.writerStep = none := by
  simp [connection.writerStep, hx, hb, ho]

theorem writerStep_nil_closed (x : connection) (hx : x.writerExited = false)
    (hb : x.send.buf = []) (ho : x.send.closed = true) :
    x.writerStep = some { x with ws := x.ws.Close, writerExited := true } := by
  simp [connection.writerStep, hx, hb, ho]

theorem writerStep_cons_fail (x : connection) (m : Msg) (rest : List Msg)
    (hx : x.writerExited = false) (hb : x.send.buf = m :: rest)
    (hf : x.ws.fails x.ws.calls = true) :
    x.writerStep = some
      { ws := { x.ws with calls := x.ws.calls + 1, closed := true }
        send := { x.send with buf := rest }
        writerExited := true } := by
  simp [connection.writerStep, hx, hb, hf, Socket.WriteJSON, Socket.Close]

theorem writerStep_cons_ok (x : connection) (m : Msg) (rest : List Msg)
    (hx : x.writerExited = false) (hb : x.send.buf = m :: rest)
    (hf : x.ws.fails x.ws.calls = false) :
    x.writerStep = some
      { ws := { x.ws with wire := x.ws.wire ++ [m], calls := x.ws.calls + 1 }
        send := { x.send with buf := rest }
        writerExited := false } := by
  simp [connection.writerStep, hx, hb, hf, Socket.WriteJSON]

/-- A writer iteration does not change what ends up on the wire, as long as
no message is queued on a closed mailbox. -/
theorem writerStep_eventually (x y : connection) (fut : List Msg)
    (hs : x.writerStep = some y) (hc : x.send.closed = false ∨ fut = []) :
    y.eventually fut = x.eventually fut := by
  cases hx : x.writerExited with
  | true => rw [writerStep_of_exited x hx] at hs; exact absurd hs (by simp)
  | false =>
    cases hb : x.send.buf with
    | nil =>
      cases ho : x.send.closed with
      | false => rw [writerStep_nil_open x hx hb ho] at hs; exact absurd hs (by simp)
      | true =>
        rw [writerStep_nil_closed x hx hb ho] at hs
        injection hs with hs
        subst hs
        have hfut : fut = [] := by
          rcases hc with hc | hc
          · rw [ho] at hc; exact absurd hc (by decide)
          · exact hc
        simp [connection.eventually, hx, hb, hfut, Socket.Close]
    | cons m rest =>
      cases hf : x.ws.fails x.ws.calls with
      | true =>
        rw [writerStep_cons_fail x m rest hx hb hf] at hs
        injection hs with hs
        subst hs
        simp [connection.eventually, hx, hb, firstFailure, hf]
      | false =>
        rw [writerStep_cons_ok x m rest hx hb hf] at hs
        injection hs with hs
        subst hs
        simp [connection.eventually, hx, hb, firstFailure, hf]

theorem writer_of_exited (n : Nat) (x : connection) (hx : x.writerExited = true) :
    x.writer n = x := by
  cases n with
  | zero => rfl
  | succ n => simp [connection.writer, writerStep_of_exited x hx]

theorem writerStep_length (x y : connection) (hs : x.writerStep = some y) :
    y.send.buf.length ≤ x.send.buf.length - 1 := by
  cases hx : x.writerExited with
  | true => rw [writerStep_of_exited x hx] at hs; exact absurd hs (by simp)
  | false =>
    cases hb : x.send.buf with
    | nil =>
      cases ho : x.send.closed with
      | false => rw [writerStep_nil_open x hx hb ho] at hs; exact absurd hs (by simp)
      | true =>
        rw [writerStep_nil_closed x hx hb ho] at hs
        injection hs with hs
        subst hs
        simp [hb]
    | cons m rest =>
      cases hf : x.ws.fails x.ws.calls with
      | true =>
        rw [writerStep_cons_fail x m rest hx hb hf] at hs
        injection hs with hs
        subst hs
        simp
      | false =>
        rw [writerStep_cons_ok x m rest hx hb hf] at hs
        injection hs with hs
        subst hs
        simp

/-- Once the writer has run as many iterations as there are queued messages,
the wire holds what the queued messages were bound to put on it. -/
theorem writer_wire (n : Nat) :
    ∀ x : connection, x.send.buf.length ≤ n → (x.writer n).ws.wire = x.eventually [] := by
  induction n with
  | zero =>
    intro x hn
    have hb : x.send.buf = [] := List.length_eq_zero.mp (by omega)
    cases hx : x.writerExited <;> simp [connection.writer, connection.eventually, hx, hb]
  | succ n ih =>
    intro x hn
    simp only [connection.writer]
    cases hs : x.writerStep with
    | none =>
      cases hx : x.writerExited with
      | true => simp [connection.eventually, hx]
      | false =>
        cases hb : x.send.buf with
        | nil => simp [connection.eventually, hx, hb]
        | cons m rest =>
          cases hf : x.ws.fails x.ws.calls with
          | true => rw [writerStep_cons_fail x m rest hx hb hf] at hs; exact absurd hs (by simp)
          | false => rw [writerStep_cons_ok x m rest hx hb hf] at hs; exact absurd hs (by simp)
    | some y =>
      simp only []
      have hl := writerStep_length x y hs
      rw [ih y (by omega), writerStep_eventually x y [] hs (Or.inr rfl)]

/-- A writer that meets a failing write or a closed mailbox returns, with the
socket closed, once it has run more iterations than there are queued
messages; the wire then holds the queued messages up to the first failing
write. -/
theorem writer_returns (n : Nat) :
    ∀ x : connection, x.writerExited = false → x.send.buf.length < n →
      (firstFailure x.ws.fails x.ws.calls x.send.buf < x.send.buf.length ∨
        x.send.closed = true) →
      (x.writer n).writerExited = true ∧ (x.writer n).ws.closed = true ∧
        (x.writer n).ws.wire = x.ws.wire ++
          x.send.buf.take (firstFailure x.ws.fails x.ws.calls x.send.buf) := by
  induction n with
  | zero => intro x _ hn; omega
  | succ n ih =>
    intro x hx hn hstop
    simp only [connection.writer]
    cases hb : x.send.buf with
    | nil =>
      have ho : x.send.closed = true := by
        rcases hstop with hk | ho
        · simp [hb, firstFailure] at hk
        · exact ho
      rw [writerStep_nil_closed x hx hb ho]
      simp only []
      rw [writer_of_exited n _ rfl]
      simp [Socket.Close, firstFailure]
    | cons m rest =>
      cases hf : x.ws.fails x.ws.calls with
      | true =>
        rw [writerStep_cons_fail x m rest hx hb hf]
        simp only []
        rw [writer_of_exited n _ rfl]
        simp [firstFailure, hf]
      | false =>
        rw [writerStep_cons_ok x m rest hx hb hf]
        simp only []
        rw [hb] at hn hstop
        simp only [firstFailure, hf, List.length_cons] at hn hstop ⊢
        obtain ⟨h1, h2, h3⟩ := ih
          { ws := { x.ws with wire := x.ws.wire ++ [m], calls := x.ws.calls + 1 }
            send := { x.send with buf := rest }
            writerExited := false } rfl (by simp only []; omega)
          (by
            rcases hstop with hk | ho
            · left; simp only [] at hk ⊢; simpa using hk
            · right; exact ho)
        refine ⟨h1, h2, ?_⟩
        rw [h3]
        simp

theorem broadcasts_cons (a : Action) (tr : List Action) :
    broadcasts (a :: tr) = broadcasts [a] ++ broadcasts tr := by
  cases a <;> rfl

theorem eventually_offered (x : connection) (m : Msg) (fut : List Msg)
    (hf : x.send.full = false) :
    (x.offered m).eventually fut = x.eventually (m :: fut) := by
  simp [connection.offered, hf, connection.eventually]

/-- One action that leaves `c` registered, in a state where `c` is a member
and all members have open mailboxes: `c` is a member of the next state, and
what ends up on the wire of `c` is the same when the event of a broadcast is
counted among the messages queued later. -/
theorem step_track (c : ConnPtr) (h h1 : hub) (a : Action) (ho : MembersOpen h)
    (hc : c ∈ h.connections) (he : enabled h a = true) (hk : keeps c h a = true)
    (hstep : step h a = .ok h1) (fut : List Msg) :
    c ∈ h1.connections ∧
      (h1.heap c).eventually fut = (h.heap c).eventually (broadcasts [a] ++ fut) := by
  cases a with
  | register d =>
    simp only [step] at hstep
    injection hstep with hstep
    subst hstep
    exact ⟨by simp [hub.register, hc], rfl⟩
  | unregister d =>
    have hdc : d ≠ c := by simpa [keeps] using hk
    by_cases hd : d ∈ h.connections
    · simp only [step, unregister_of_open h d hd (ho d hd)] at hstep
      injection hstep with hstep
      subst hstep
      refine ⟨by simp [hub.setSend, hc, Ne.symm hdc], ?_⟩
      simp [hub.setSend, Ne.symm hdc, broadcasts]
    · simp only [step, unregister_of_not_mem h d hd] at hstep
      injection hstep with hstep
      subst hstep
      exact ⟨hc, rfl⟩
  | broadcast m ord =>
    have hr : RangeOrder h ord := by simpa [enabled] using he
    have hf : (h.heap c).send.full = false := by simpa [keeps] using hk
    simp only [step, broadcast_eq_fanout m h ord hr ho] at hstep
    injection hstep with hstep
    subst hstep
    refine ⟨(fanout_connections m h ord hr c).mpr ⟨hc, hf⟩, ?_⟩
    rw [fanout_heap m h ord hr c, if_pos hc, eventually_offered _ m fut hf]
    rfl
  | write d =>
    simp only [step] at hstep
    injection hstep with hstep
    subst hstep
    refine ⟨by rw [hub_writerStep_connections]; exact hc, ?_⟩
    by_cases hdc : c = d
    · subst hdc
      simp only [hub.writerStep, broadcasts, List.nil_append]
      cases hs : (h.heap c).writerStep with
      | none => rfl
      | some y =>
        simp only [Function.update_same]
        exact writerStep_eventually _ y fut hs (Or.inl (ho c hc))
    · rw [hub_writerStep_other h d c hdc]
      rfl

theorem staysRegistered_cons (c : ConnPtr) (h : hub) (a : Action) (tr : List Action)
    (hs : StaysRegistered c h (a :: tr)) :
    keeps c h a = true ∧ ∀ h1, step h a = .ok h1 → StaysRegistered c h1 tr := by
  unfold StaysRegistered at hs
  simp only [staysRegistered, Bool.and_eq_true] at hs
  refine ⟨hs.1, ?_⟩
  intro h1 h1eq
  have h2 := hs.2
  rw [h1eq] at h2
  exact h2

/-- A scheduled run that leaves the member `c` registered, with the
conditions under which no run panics: it ends in a state where `c` is a
member, and what ends up on the wire of `c` is what the messages queued at
the start, followed by the events broadcast in the run, were bound to put
on it. -/
theorem exec_track (c : ConnPtr) (tr : List Action) :
    ∀ h : hub, Scheduled h tr → (registered tr).Nodup → MembersOpen h →
      (∀ d ∈ registered tr, d ∉ h.connections ∧ (h.heap d).send.closed = false) →
      c ∈ h.connections → StaysRegistered c h tr →
      ∃ h1, exec h tr = .ok h1 ∧ MembersOpen h1 ∧ c ∈ h1.connections ∧
        (h1.heap c).eventually [] = (h.heap c).eventually (broadcasts tr) := by
  induction tr with
  | nil =>
    intro h _ _ ho _ hc _
    exact ⟨h, rfl, ho, hc, rfl⟩
  | cons a tr ih =>
    intro h hs hn ho hfut hc hstay
    obtain ⟨he, hs1⟩ := scheduled_cons h a tr hs
    obtain ⟨hk, hstay1⟩ := staysRegistered_cons c h a tr hstay
    have hreg : ∀ d, a = .register d → (h.heap d).send.closed = false := by
      intro d hd
      subst hd
      exact (hfut d (List.mem_cons_self d _)).2
    obtain ⟨h1, hstep, ho1, hframe⟩ := step_safe h a ho he hreg
    obtain ⟨hc1, hev⟩ := step_track c h h1 a ho hc he hk hstep (broadcasts tr)
    have hn1 : (registered tr).Nodup ∧
        ∀ d ∈ registered tr, d ∈ registered (a :: tr) ∧ a ≠ .register d := by
      cases a with
      | register d0 =>
        simp only [registered, List.nodup_cons] at hn
        refine ⟨hn.2, fun d hd => ⟨List.mem_cons_of_mem d0 hd, ?_⟩⟩
        intro e
        injection e with e
        exact hn.1 (e ▸ hd)
      | unregister d0 => exact ⟨hn, fun d hd => ⟨hd, by simp⟩⟩
      | broadcast m ord => exact ⟨hn, fun d hd => ⟨hd, by simp⟩⟩
      | write d0 => exact ⟨hn, fun d hd => ⟨hd, by simp⟩⟩
    have hfut1 : ∀ d ∈ registered tr,
        d ∉ h1.connections ∧ (h1.heap d).send.closed = false := by
      intro d hd
      obtain ⟨hd0, hne⟩ := hn1.2 d hd
      obtain ⟨hnm, hcl⟩ := hframe d (hfut d hd0).1 hne
      exact ⟨hnm, by rw [hcl]; exact (hfut d hd0).2⟩
    obtain ⟨h2, hexec, ho2, hc2, hev2⟩ :=
      ih h1 (hs1 h1 hstep) hn1.1 ho1 hfut1 hc1 (hstay1 h1 hstep)
    refine ⟨h2, ?_, ho2, hc2, ?_⟩
    · simp only [exec, hstep]
      exact hexec
    · rw [hev2, hev, broadcasts_cons a tr]

/-- C7: (1) a connection `c` is registered on a new hub while its writer has
not returned, and the run that follows keeps it registered (no request to
unregister it, its mailbox never full at a broadcast; every connection
registered at most once and with an open mailbox); then the run does not
panic, `c` is still a member, and once the writer has taken the messages
still queued, the frames written to the socket are the messages of the
mailbox in the order they were queued, that is the messages queued at the
start followed by the events in the order they were broadcast, up to the
first failing write; all of them when no write fails. (2) A writer that
meets a failing write returns and closes the socket, having written exactly
the queued messages before the first failing write. (3) A writer whose
mailbox is closed, no write failing, writes every queued message in order,
then returns and closes the socket. (4) `firstFailure` is the position of the
first failing write. -/
theorem writer_fifo :
    (∀ (heap : ConnPtr → connection) (c : ConnPtr) (tr : List Action),
      Scheduled (newHub heap) (.register c :: tr) →
      (registered (.register c :: tr)).Nodup →
      (∀ d ∈ registered (.register c :: tr), (heap d).send.closed = false) →
      (heap c).writerExited = false →
      StaysRegistered c ((newHub heap).register c) tr →
      ∃ h1, exec (newHub heap) (.register c :: tr) = .ok h1 ∧ c ∈ h1.connections ∧
        ∀ n, (h1.heap c).send.buf.length ≤ n →
          ((h1.heap c).writer n).ws.wire =
            (heap c).ws.wire ++ ((heap c).send.buf ++ broadcasts tr).take
              (firstFailure (heap c).ws.fails (heap c).ws.calls
                ((heap c).send.buf ++ broadcasts tr)) ∧
          ((∀ k, (heap c).ws.fails k = false) →
            ((h1.heap c).writer n).ws.wire =
              (heap c).ws.wire ++ ((heap c).send.buf ++ broadcasts tr))) ∧
    (∀ (x : connection) (n : Nat), x.writerExited = false → x.send.buf.length < n →
      firstFailure x.ws.fails x.ws.calls x.send.buf < x.send.buf.length →
      (x.writer n).writerExited = true ∧ (x.writer n).ws.closed = true ∧
        (x.writer n).ws.wire = x.ws.wire ++
          x.send.buf.take (firstFailure x.ws.fails x.ws.calls x.send.buf)) ∧
    (∀ (x : connection) (n : Nat), x.writerExited = false → x.send.buf.length < n →
      x.send.closed = true →
      (∀ i, i < x.send.buf.length → x.ws.fails (x.ws.calls + i) = false) →
      (x.writer n).writerExited = true ∧ (x.writer n).ws.closed = true ∧
        (x.writer n).ws.wire = x.ws.wire ++ x.send.buf) ∧
    (∀ (fails : Nat → Bool) (calls : Nat) (q : List Msg),
      firstFailure fails calls q ≤ q.length ∧
      (∀ i, i < firstFailure fails calls q → fails (calls + i) = false) ∧
      (firstFailure fails calls q < q.length →
        fails (calls + firstFailure fails calls q) = true)) := by
  refine ⟨?_, ?_, ?_, ?_⟩
  · intro heap c tr hs hn hopen hw hstay
    have hs1 := (scheduled_cons _ _ _ hs).2 _ rfl
    simp only [registered, List.nodup_cons] at hn
    have ho : MembersOpen ((newHub heap).register c) := by
      intro d hd
      have hdc : d = c := by simpa [newHub, hub.register] using hd
      subst hdc
      exact hopen d (List.mem_cons_self d _)
    have hfut : ∀ d ∈ registered tr, d ∉ ((newHub heap).register c).connections ∧
        (((newHub heap).register c).heap d).send.closed = false := by
      intro d hd
      have hdc : d ≠ c := fun e => hn.1 (e ▸ hd)
      exact ⟨by simp [newHub, hub.register, hdc], hopen d (List.mem_cons_of_mem c hd)⟩
    obtain ⟨h1, hexec, _, hc1, hev⟩ := exec_track c tr _ hs1 hn.2 ho hfut
      (by simp [newHub, hub.register]) hstay
    refine ⟨h1, by simp only [exec, step]; exact hexec, hc1, ?_⟩
    intro n hlen
    have hwire : ((h1.heap c).writer n).ws.wire =
        (heap c).ws.wire ++ ((heap c).send.buf ++ broadcasts tr).take
          (firstFailure (heap c).ws.fails (heap c).ws.calls
            ((heap c).send.buf ++ broadcasts tr)) := by
      rw [writer_wire n _ hlen, hev]
      simp [connection.eventually, newHub, hub.register, hw]
    refine ⟨hwire, ?_⟩
    intro hok
    rw [hwire, firstFailure_of_ok _ hok, List.take_length]
  · intro x n hx hn hk
    exact writer_returns n x hx hn (Or.inl hk)
  · intro x n hx hn hc hok
    obtain ⟨h1, h2, h3⟩ := writer_returns n x hx hn (Or.inr hc)
    refine ⟨h1, h2, ?_⟩
    have hle := firstFailure_le x.ws.fails x.send.buf x.ws.calls
    have hk : firstFailure x.ws.fails x.ws.calls x.send.buf = x.send.buf.length := by
      by_contra hne
      have hlt : firstFailure x.ws.fails x.ws.calls x.send.buf < x.send.buf.length := by
        omega
      have h4 := firstFailure_at x.ws.fails x.send.buf x.ws.calls hlt
      rw [hok _ hlt] at h4
      exact absurd h4 (by decide)
    rw [h3, hk, List.take_length]
  · intro fails calls q
    exact ⟨firstFailure_le fails q calls, firstFailure_before fails q calls,
      firstFailure_at fails q calls⟩

/-- C7, evaluated on a run of three broadcasts to one connection, on a
writer whose second write fails, and on a writer whose mailbox is closed. -/
theorem writer_fifo_witness :
    (∃ h1, exec (newHub fun _ => connection.new 2) (.register 0 :: sampleFeed) = .ok h1 ∧
      0 ∈ h1.connections ∧
      ∀ n, (h1.heap 0).send.buf.length ≤ n →
        ((h1.heap 0).writer n).ws.wire =
          (connection.new 2).ws.wire ++ ((connection.new 2).send.buf ++
            broadcasts sampleFeed).take
            (firstFailure (connection.new 2).ws.fails (connection.new 2).ws.calls
              ((connection.new 2).send.buf ++ broadcasts sampleFeed)) ∧
        ((∀ k, (connection.new 2).ws.fails k = false) →
          ((h1.heap 0).writer n).ws.wire =
            (connection.new 2).ws.wire ++ ((connection.new 2).send.buf ++
              broadcasts sampleFeed))) ∧
    ((flakyConn.writer 4).writerExited = true ∧ (flakyConn.writer 4).ws.closed = true ∧
      (flakyConn.writer 4).ws.wire = flakyConn.ws.wire ++
        flakyConn.send.buf.take
          (firstFailure flakyConn.ws.fails flakyConn.ws.calls flakyConn.send.buf)) ∧
    ((closingConn.writer 3).writerExited = true ∧ (closingConn.writer 3).ws.closed = true ∧
      (closingConn.writer 3).ws.wire = closingConn.ws.wire ++ closingConn.send.buf) :=
  ⟨writer_fifo.1 (fun _ => connection.new 2) 0 sampleFeed (by decide) (by decide) (by decide)
      (by decide) (by decide),
    writer_fifo.2.1 flakyConn 4 (by decide) (by decide) (by decide),
    writer_fifo.2.2.1 closingConn 3 (by decide) (by decide) (by decide) (by decide)⟩

/-! ## The feed adapters -/

theorem changesLoop_cursors (streams : List (List Msg × Bool)) :
    changesLoop (cursors streams) =
      { sent := (streams.map Prod.fst).flatten
        logged := (streams.filter fun s => s.2).length
        fatal := false } := by
  induction streams with
  | nil => rfl
  | cons st streams ih =>
    unfold cursors at ih ⊢
    simp only [List.map_cons, changesLoop, ih, List.flatten_cons, List.filter_cons]
    cases st.2 <;> simp [Nat.add_comm]

theorem changesLoop_openError (streams : List (List Msg × Bool)) (rest : List Attempt) :
    changesLoop (cursors streams ++ .openError :: rest) =
      { sent := (streams.map Prod.fst).flatten
        logged := (streams.filter fun s => s.2).length
        fatal := true } := by
  induction streams with
  | nil => rfl
  | cons st streams ih =>
    unfold cursors at ih ⊢
    simp only [List.map_cons, List.cons_append, changesLoop, List.flatten_cons,
      List.filter_cons, List.append_eq]
    rw [ih]
    cases st.2 <;> simp [Nat.add_comm]

/-- C8: when every `Run` succeeds and each cursor yields a finite list of
events and then ends, with or without a stream error, each of the three feed
adapters sends on the hub's broadcast channel exactly the concatenation of
the streams' events in order, logs one line for each stream that ended with
an error and does not terminate the process; in particular a stream that
fails after `e1, e2` followed by a stream that yields `e3` makes the hub
receive `e1, e2, e3`. -/
theorem adapter_resilience :
    (∀ streams : List (List Msg × Bool),
      (allChanges (cursors streams)).sent = (streams.map Prod.fst).flatten ∧
      (allChanges (cursors streams)).fatal = false ∧
      (allChanges (cursors streams)).logged = (streams.filter fun s => s.2).length ∧
      activeChanges (cursors streams) = allChanges (cursors streams) ∧
      completedChanges (cursors streams) = allChanges (cursors streams)) ∧
    (∀ e1 e2 e3 : Msg,
      (allChanges [.cursor [e1, e2] true, .cursor [e3] false]).sent = [e1, e2, e3]) := by
  refine ⟨?_, ?_⟩
  · intro streams
    simp [allChanges, activeChanges, completedChanges, changesLoop_cursors]
  · intro e1 e2 e3
    rfl

/-- C9 (as amended): a failure to open the upstream subscription is fatal at
every attempt, the initial one and every later one: whatever streams were
opened and forwarded before it (none, or any number, ended with or without a
stream error), each adapter terminates the process at the first `Run` that
fails, having sent the events of the streams opened before, logged one line
for each of them that ended with a stream error, and done nothing of what
the database would have answered afterwards (no retry). A stream error after
a successful open is only logged, and the adapter subscribes again: when
every `Run` succeeds the process is not terminated, every stream's events
are sent and one line is logged for each stream that ended with an error. -/
theorem open_failure_always_fatal (streams : List (List Msg × Bool)) (rest : List Attempt) :
    allChanges (cursors streams ++ .openError :: rest) =
      { sent := (streams.map Prod.fst).flatten
        logged := (streams.filter fun s => s.2).length
        fatal := true } ∧
    activeChanges (cursors streams ++ .openError :: rest) =
      { sent := (streams.map Prod.fst).flatten
        logged := (streams.filter fun s => s.2).length
        fatal := true } ∧
    completedChanges (cursors streams ++ .openError :: rest) =
      { sent := (streams.map Prod.fst).flatten
        logged := (streams.filter fun s => s.2).length
        fatal := true } ∧
    allChanges (cursors streams) =
      { sent := (streams.map Prod.fst).flatten
        logged := (streams.filter fun s => s.2).length
        fatal := false } ∧
    activeChanges (cursors streams) =
      { sent := (streams.map Prod.fst).flatten
        logged := (streams.filter fun s => s.2).length
        fatal := false } ∧
    completedChanges (cursors streams) =
      { sent := (streams.map Prod.fst).flatten
        logged := (streams.filter fun s => s.2).length
        fatal := false } :=
  ⟨changesLoop_openError streams rest, changesLoop_openError streams rest,
    changesLoop_openError streams rest, changesLoop_cursors streams,
    changesLoop_cursors streams, changesLoop_cursors streams⟩

/-- C9 as stated fails: the first subscription is opened and yields the
event 1, then ends with an error; the `Run` that re-subscribes fails; the
adapter terminates the process instead of retrying, and the event 2 of the
stream a retry would have opened is never sent. -/
theorem reopen_failure_is_fatal :
    allChanges reopenFails = { sent := [1], logged := 1, fatal := true } ∧
    activeChanges reopenFails = { sent := [1], logged := 1, fatal := true } ∧
    completedChanges reopenFails = { sent := [1], logged := 1, fatal := true } := by
  decide

end TodoHub
